import Mathlib

/-!
Verification development for the `aioweb` asynchronous web container
(`src/aioweb/protocol.py`, `src/aioweb/request.py`, `src/aioweb/exceptions.py`,
`src/aioweb/container.py`).

The Python code is shallowly embedded as follows.

* Python `bytes` values become `List Nat` (one `Nat` per byte); `bytes(s, "utf-8")`
  becomes the executable UTF-8 encoder `utf8` below.
* A Python `dict` mapping header names to raw byte values becomes an ordered
  association list with the single-entry-per-key update `dictInsert`, mirroring
  the in-place overwrite semantics of `self._headers[key_str] = value`.
* The mutable per-connection object `HttpProtocol` becomes the record
  `HttpProtocolState`.  Because `on_headers_complete` stores the *object
  reference* `self._headers` into the request while `on_message_complete`
  rebinds `self._headers` to a fresh dict, dict objects live in an arena
  `store : List Headers`; the field `cur` is the index of the dict object
  currently bound to `self._headers`, and requests keep the index of the dict
  object they were constructed with.  Likewise `asyncio.Future` objects live in
  the arena `futures`, with `none` meaning pending and `some b` resolved.
* The parser callbacks `on_header`, `on_headers_complete`, `on_body`,
  `on_message_complete` and the transport callbacks `connection_made`,
  `connection_lost`, `data_received` are pure state transformers.
  `data_received` is parameterised by the list of callbacks the parser issues
  for the fed chunk; well-formed callback streams (per message: headers, then
  headers-complete, then body chunks, then message-complete, chunked-trailer
  callbacks excluded) are described by the small automata `cbsPhase`/`evsPhase`.
* The background worker task `_worker_loop` is a recursive function over a
  script of scheduler events: either the queue yields the next request
  (together with the outcome of awaiting the user handler and whether
  `transport.write` raises, both environment behaviour), or a `CancelledError`
  is delivered while the worker is suspended in `queue.get()`.  A
  `CancelledError` delivered while the worker awaits the user handler surfaces
  as the handler outcome `raised (cancelledError msg)`: in Python it is an
  exception raised at the `await` inside `_invoke_handler`, where
  `except BaseException` catches it (`asyncio.exceptions.CancelledError`
  derives from `BaseException` and not from `aioweb.exceptions.HTTPException`).
-/

/-- A Python `bytes` value: one `Nat` per byte. -/
abbrev Bytes := List Nat

/-- UTF-8 encoding of a single character, byte by byte. -/
def utf8Char (c : Char) : List Nat :=
  let n := c.toNat
  if n < 0x80 then [n]
  else if n < 0x800 then [0xC0 + n / 64, 0x80 + n % 64]
  else if n < 0x10000 then [0xE0 + n / 4096, 0x80 + (n / 64) % 64, 0x80 + n % 64]
  else [0xF0 + n / 262144, 0x80 + (n / 4096) % 64, 0x80 + (n / 64) % 64, 0x80 + n % 64]

/-- Python `bytes(s, "utf-8")` / `s.encode("utf-8")`. -/
def utf8 (s : String) : Bytes := s.data.flatMap utf8Char

/-- Python dict from decoded header name to raw value bytes. -/
abbrev Headers := List (String × Bytes)

/-- Python `d[k] = v`: overwrite in place if the key is present, else append. -/
def dictInsert : Headers → String → Bytes → Headers
  | [], k, v => [(k, v)]
  | (k0, v0) :: rest, k, v =>
    if k0 = k then (k0, v) :: rest else (k0, v0) :: dictInsert rest k v

/-- Python `d.get(k)`. -/
def dictGet : Headers → String → Option Bytes
  | [], _ => none
  | (k0, v0) :: rest, k => if k0 = k then some v0 else dictGet rest k

/-- `ConnectionState` from `protocol.py`. -/
inductive ConnectionState where
  | CLOSED
  | HEADER
  | BODY
  | PENDING
  deriving DecidableEq, BEq, Repr

/-- An exception object raised by the user handler, as classified by the
`except` clauses of `HttpProtocol._invoke_handler`:
`aioweb.exceptions.HTTPException`, `asyncio.exceptions.CancelledError`, or any
other `BaseException` (with `str(type(exc))` and `str(exc)` as data). -/
inductive PyExc where
  | httpException (msg : String)
  | cancelledError (msg : String)
  | other (typeStr : String) (msg : String)
  deriving DecidableEq, Repr

/-- Python `str(exc)` for a single-argument exception. -/
def pyStr : PyExc → String
  | .httpException m => m
  | .cancelledError m => m
  | .other _ m => m

/-- Python `str(type(exc))`. -/
def pyTypeStr : PyExc → String
  | .httpException _ => "<class \x27aioweb.exceptions.HTTPException\x27>"
  | .cancelledError _ => "<class \x27asyncio.exceptions.CancelledError\x27>"
  | .other t _ => t

/-- Outcome of `await self._container.handle_request(request)`:
either the handler returned body bytes, or it raised. -/
inductive HandlerOutcome where
  | success (body : Bytes)
  | raised (exc : PyExc)
  deriving DecidableEq, Repr

/-- `HttpProtocol._invoke_handler` (protocol.py lines 177-210): invoke the
container handler, map exceptions to an error message, and format the HTTP
response bytes.  Note that the second `except` clause catches every
`BaseException`, `CancelledError` included. -/
def invokeHandler (http_version : String) (outcome : HandlerOutcome) : Bytes :=
  let resultStatus : Bytes × Nat :=
    match outcome with
    | .success b => (b, 200)
    | .raised (.httpException m) =>
      (utf8 ("Internal server error, message is " ++ m), 500)
    | .raised e =>
      (utf8 ("Unknown exception (type=" ++ pyTypeStr e ++ ", msg=" ++ pyStr e
        ++ ") caught"), 500)
  let result := resultStatus.1
  let content_length := result.length
  utf8 ("HTTP/" ++ http_version ++ " " ++ toString resultStatus.2 ++ " OK\r\n")
    ++ utf8 "Content-Type: text/plain; charset=utf-8\r\n"
    ++ utf8 ("Content-Length: " ++ toString content_length ++ "\r\n")
    ++ utf8 "\r\n"
    ++ result

/-- `HTTPToolsRequest` from `request.py`.  The constructor arguments are stored
unchanged; `headersRef` is the arena index of the dict *object* passed as the
`headers` argument (default `None`), `future` the arena index of the
`asyncio.Future` passed as `future`. -/
structure HTTPToolsRequest where
  future : Nat
  headersRef : Option Nat := none
  http_version : String := "1.1"
  keep_alive : Bool := true
  deriving DecidableEq, Repr

/-- `HTTPToolsRequest.headers` (request.py lines 55-58): return `{}` when the
stored dict is `None`, else the stored dict object (read from the arena). -/
def requestHeaders (store : List Headers) (r : HTTPToolsRequest) : Headers :=
  match r.headersRef with
  | none => []
  | some i => store.getD i []

/-- The mutable state of one `HttpProtocol` instance (protocol.py `__slots__`).
`store` is the arena of dict objects ever bound to `self._headers` on this
connection, `cur` the index of the currently bound one; `futures` is the arena
of body futures (`none` = pending, `some b` = resolved with `b`). -/
structure HttpProtocolState where
  transportAlive : Bool
  taskAlive : Bool
  timeoutAlive : Bool
  parserAlive : Bool
  state : ConnectionState
  store : List Headers
  cur : Nat
  bodyFuture : Option Nat
  body : Option Bytes
  futures : List (Option Bytes)
  queue : List HTTPToolsRequest
  deriving DecidableEq, Repr

/-- `HttpProtocol.__init__`: no transport, no parser, state CLOSED, a fresh
empty headers dict, no body, no body future, an empty queue. -/
def initProtocol : HttpProtocolState :=
  { transportAlive := false, taskAlive := false, timeoutAlive := false
    parserAlive := false, state := .CLOSED
    store := [[]], cur := 0
    bodyFuture := none, body := none, futures := [], queue := [] }

/-- `HttpProtocol.connection_made` (lines 74-95): remember the transport,
create the worker task, schedule the timeout, state := PENDING. -/
def connection_made (s : HttpProtocolState) : HttpProtocolState :=
  { s with transportAlive := true, taskAlive := true, timeoutAlive := true
           state := .PENDING }

/-- `HttpProtocol.connection_lost` (lines 97-130): drop the transport, cancel
the worker task and the timeout handler, replace the queue by a fresh empty
one, state := CLOSED. -/
def connection_lost (s : HttpProtocolState) : HttpProtocolState :=
  { s with transportAlive := false, taskAlive := false, timeoutAlive := false
           queue := [], state := .CLOSED }

/-- `HttpProtocol.on_header` (lines 301-313): state := HEADER; if the key is
not `None` and its UTF-8 decoding is non-empty, store the raw value bytes under
the decoded name in the current headers dict.  The `key` parameter carries the
already-decoded name (`None` for a missing key). -/
def on_header (s : HttpProtocolState) (key : Option String) (value : Bytes) :
    HttpProtocolState :=
  let s := { s with state := .HEADER }
  match key with
  | none => s
  | some key_str =>
    if key_str.length > 0 then
      { s with store := s.store.set s.cur (dictInsert (s.store.getD s.cur []) key_str value) }
    else s

/-- `HttpProtocol.on_body` (lines 315-325): lazily allocate the body buffer and
append the chunk. -/
def on_body (s : HttpProtocolState) (data : Bytes) : HttpProtocolState :=
  match s.body with
  | none => { s with body := some data }
  | some b => { s with body := some (b ++ data) }

/-- `HttpProtocol.on_headers_complete` (lines 338-358): create a fresh body
future, build an `HTTPToolsRequest` from it, the current headers dict object
(`self.get_headers()` returns `self._headers` by reference), and the parser's
http version and keep-alive flag; enqueue it; state := BODY. -/
def on_headers_complete (s : HttpProtocolState) (http_version : String)
    (keep_alive : Bool) : HttpProtocolState :=
  let fid := s.futures.length
  let request : HTTPToolsRequest :=
    { future := fid, headersRef := some s.cur
      http_version := http_version, keep_alive := keep_alive }
  { s with futures := s.futures ++ [none], bodyFuture := some fid
           queue := s.queue ++ [request], state := .BODY }

/-- `HttpProtocol.on_message_complete` (lines 267-298): drop the parser, state
:= PENDING, rebind `self._headers` to a fresh empty dict; then, if a body
future exists, resolve it with the accumulated body (or `b""` when no body
chunk arrived), else only log; finally clear body, parser and body future.
Returns the new state together with the value passed to `set_result`
(`none` when no future existed, so nothing was resolved). -/
def on_message_complete (s : HttpProtocolState) :
    HttpProtocolState × Option Bytes :=
  let s := { s with parserAlive := false, state := .PENDING
                    store := s.store ++ [[]], cur := s.store.length }
  match s.bodyFuture with
  | none =>
    ({ s with body := none, bodyFuture := none }, none)
  | some fid =>
    let value : Bytes :=
      match s.body with
      | none => []
      | some b => b
    ({ s with futures := s.futures.set fid (some value)
              body := none, bodyFuture := none }, some value)

/-- One callback issued by the HTTP parser during `feed_data`.  The
headers-complete callback carries the parser's `get_http_version()` and
`should_keep_alive()` answers. -/
inductive ParserCb where
  | header (key : Option String) (value : Bytes)
  | headersComplete (http_version : String) (keep_alive : Bool)
  | bodyChunk (data : Bytes)
  | messageComplete
  deriving DecidableEq, Repr

/-- Dispatch one parser callback. -/
def applyCb (s : HttpProtocolState) : ParserCb → HttpProtocolState
  | .header k v => on_header s k v
  | .headersComplete ver ka => on_headers_complete s ver ka
  | .bodyChunk d => on_body s d
  | .messageComplete => (on_message_complete s).1

/-- Run a list of parser callbacks in order. -/
def runCbs (s : HttpProtocolState) : List ParserCb → HttpProtocolState
  | [] => s
  | c :: cs => runCbs (applyCb s c) cs

/-- The states the engine passes through while running the callbacks
(one entry per callback, recording each assignment to `self._state`). -/
def cbTrace (s : HttpProtocolState) : List ParserCb → List ConnectionState
  | [] => []
  | c :: cs => (applyCb s c).state :: cbTrace (applyCb s c) cs

/-- `HttpProtocol.data_received` (lines 132-164) less the parser feed itself:
lazily create the parser, advance PENDING to HEADER. The callbacks the parser
issues for the chunk are applied afterwards by `applyEvent`. -/
def dataReceivedPre (s : HttpProtocolState) : HttpProtocolState :=
  let s := { s with parserAlive := true }
  if s.state = .PENDING then { s with state := .HEADER } else s

/-- One operation invoked on the engine by the transport layer.  A
`dataReceived` event carries the callbacks the parser issues while the chunk is
fed (possibly none, for a partial message). -/
inductive EngineEvent where
  | connectionMade
  | dataReceived (cbs : List ParserCb)
  | connectionLost
  deriving DecidableEq, Repr

/-- Apply one engine operation. -/
def applyEvent (s : HttpProtocolState) : EngineEvent → HttpProtocolState
  | .connectionMade => connection_made s
  | .dataReceived cbs => runCbs (dataReceivedPre s) cbs
  | .connectionLost => connection_lost s

/-- The states the engine passes through during one operation. -/
def evTrace (s : HttpProtocolState) : EngineEvent → List ConnectionState
  | .connectionMade => [(connection_made s).state]
  | .dataReceived cbs => (dataReceivedPre s).state :: cbTrace (dataReceivedPre s) cbs
  | .connectionLost => [(connection_lost s).state]

/-- Run a sequence of engine operations. -/
def runEvents (s : HttpProtocolState) : List EngineEvent → HttpProtocolState
  | [] => s
  | e :: es => runEvents (applyEvent s e) es

/-- All states the engine passes through during a run. -/
def runTrace (s : HttpProtocolState) : List EngineEvent → List ConnectionState
  | [] => []
  | e :: es => evTrace s e ++ runTrace (applyEvent s e) es

/-- Where the parser is inside one HTTP message: still delivering header lines,
or past headers-complete and delivering body chunks. -/
inductive MsgPhase where
  | headers
  | bodyPhase
  deriving DecidableEq, Repr

/-- The callback protocol of an incremental HTTP/1.x request parser, one
message at a time: header callbacks, then headers-complete, then body chunks,
then message-complete (chunked-encoding trailer callbacks are out of scope).
`none` marks a callback the parser never issues in that phase. -/
def cbPhase : MsgPhase → ParserCb → Option MsgPhase
  | .headers, .header _ _ => some .headers
  | .headers, .headersComplete _ _ => some .bodyPhase
  | .bodyPhase, .bodyChunk _ => some .bodyPhase
  | .bodyPhase, .messageComplete => some .headers
  | _, _ => none

/-- Run the parser-protocol automaton over a callback list. -/
def cbsPhase (w : MsgPhase) : List ParserCb → Option MsgPhase
  | [] => some w
  | c :: cs =>
    match cbPhase w c with
    | none => none
    | some w2 => cbsPhase w2 cs

/-- Lifecycle position of a connection: before `connection_made`, established
(with the parser phase), or after `connection_lost`. -/
inductive ConnPhase where
  | start
  | connected (w : MsgPhase)
  | done
  deriving DecidableEq, Repr

/-- The event protocol asyncio guarantees: `connection_made` first, then data
chunks whose callbacks follow the parser protocol, then at most one
`connection_lost`, after which the engine receives nothing. -/
def evPhase : ConnPhase → EngineEvent → Option ConnPhase
  | .start, .connectionMade => some (.connected .headers)
  | .connected w, .dataReceived cbs =>
    match cbsPhase w cbs with
    | none => none
    | some w2 => some (.connected w2)
  | .connected _, .connectionLost => some .done
  | _, _ => none

/-- Run the connection-lifecycle automaton over an event list. -/
def evsPhase (p : ConnPhase) : List EngineEvent → Option ConnPhase
  | [] => some p
  | e :: es =>
    match evPhase p e with
    | none => none
    | some q => evsPhase q es

/-- `chainOK allowed a trace` holds when every *change* of state along
`a :: trace` is an `allowed` transition (repeating a state is not a
transition). -/
def chainOK (allowed : ConnectionState → ConnectionState → Bool) :
    ConnectionState → List ConnectionState → Bool
  | _, [] => true
  | prev, c :: cs => (prev == c || allowed prev c) && chainOK allowed c cs

/-- The transitions claimed by the specification:
CLOSED → PENDING → HEADER → BODY → PENDING (repeating) → CLOSED. -/
def specTransition (a b : ConnectionState) : Bool :=
  (a == .CLOSED && b == .PENDING) || (a == .PENDING && b == .HEADER)
    || (a == .HEADER && b == .BODY) || (a == .BODY && b == .PENDING)
    || (a == .PENDING && b == .CLOSED)

/-- The transitions the code actually performs: additionally, a pipelined
message with no header lines jumps PENDING → BODY at headers-complete, and
`connection_lost` moves HEADER or BODY straight to CLOSED. -/
def codeTransition (a b : ConnectionState) : Bool :=
  specTransition a b || (a == .PENDING && b == .BODY)
    || (a == .HEADER && b == .CLOSED) || (a == .BODY && b == .CLOSED)

/-- What the worker observes when it dequeues one request: the request fields
it uses, the outcome of awaiting the user handler, and whether
`transport.write` raises for this response (environment behaviour, cf. the
`fail_next` dummy transport in the repository tests).  `rid` is a ghost tag
identifying the request in the write trace. -/
structure WorkerItem where
  rid : Nat
  http_version : String
  keep_alive : Bool
  outcome : HandlerOutcome
  writeFails : Bool := false
  deriving DecidableEq, Repr

/-- One scheduler step seen by the worker loop: either `queue.get()` yields the
next request, or a `CancelledError` is delivered while the worker is suspended
in `queue.get()`. -/
inductive WorkerEvent where
  | deq (it : WorkerItem)
  | cancelAtGet
  deriving DecidableEq, Repr

/-- The transport as the worker sees it: the closing flag and the write trace
(each write tagged with the ghost request id). -/
structure Transport where
  closing : Bool
  writes : List (Nat × Bytes)
  deriving DecidableEq, Repr

/-- How a worker run ends: still suspended in `queue.get()` (the connection is
alive and the script ran out), terminated by a re-raised `CancelledError`, or
returned because the transport was closing. -/
inductive WorkerExit where
  | waiting
  | cancelled
  | returned
  deriving DecidableEq, Repr

/-- `HttpProtocol._worker_loop` (protocol.py lines 212-249) over a scheduler
script: dequeue, invoke the handler (`invokeHandler` never raises - its
`except` clauses catch every `BaseException`), return if the transport is
closing, write the response, close the transport when the request is not
keep-alive; a write error is logged and the loop continues (the close is part
of the same `try`, so it is skipped too).  A `CancelledError` delivered in
`queue.get()` is re-raised and terminates the worker. -/
def workerRun (t : Transport) : List WorkerEvent → Transport × WorkerExit
  | [] => (t, .waiting)
  | .cancelAtGet :: _ => (t, .cancelled)
  | .deq it :: rest =>
    let response_bytes := invokeHandler it.http_version it.outcome
    if t.closing then (t, .returned)
    else if it.writeFails then workerRun t rest
    else
      workerRun
        { closing := t.closing || !it.keep_alive
          writes := t.writes ++ [(it.rid, response_bytes)] } rest

/-- The ghost ids of the requests a script dequeues, in dequeue order. -/
def deqIds : List WorkerEvent → List Nat
  | [] => []
  | .deq it :: rest => it.rid :: deqIds rest
  | .cancelAtGet :: rest => deqIds rest

/-- The ghost ids of the responses a worker run writes, in write order. -/
def writeLog (t : Transport) (evs : List WorkerEvent) : List Nat :=
  ((workerRun t evs).1.writes).map Prod.fst

/-- `HttpProtocol.get_headers` (lines 328-336): the dict object currently
bound to `self._headers`. -/
def get_headers (s : HttpProtocolState) : Headers := s.store.getD s.cur []

/-- The body of a formatted HTTP response: everything after the first blank
line (the first `\r\n\r\n`). -/
def bodyAfterBlank : Bytes → Bytes
  | 13 :: 10 :: 13 :: 10 :: rest => rest
  | _ :: rest => bodyAfterBlank rest
  | [] => []

/-- The last element of a list, or the supplied default when it is empty. -/
def lastD (d : ConnectionState) : List ConnectionState → ConnectionState
  | [] => d
  | a :: as => lastD a as

/-- States compatible with the parser phase: while header lines are expected
the engine is PENDING (between messages) or HEADER (inside a header); past
headers-complete it is BODY. -/
def phaseMsgInv : MsgPhase → HttpProtocolState → Prop
  | .headers, s => s.state = .PENDING ∨ s.state = .HEADER
  | .bodyPhase, s => s.state = .BODY

/-- States compatible with the connection phase. -/
def connPhaseInv : ConnPhase → HttpProtocolState → Prop
  | .start, s => s.state = .CLOSED
  | .connected w, s => phaseMsgInv w s
  | .done, s => s.state = .CLOSED

/-- A dict-arena index that later parser callbacks can no longer touch:
it is allocated, at most the current index, and strictly below it while header
callbacks (the only mutators) may still fire. -/
def refBound (w : MsgPhase) (s : HttpProtocolState) (r : Nat) : Prop :=
  r < s.store.length ∧ r ≤ s.cur ∧ (w = .headers → r < s.cur)

/-- Every queued request holds a dict reference satisfying `refBound`, and the
current index is allocated. -/
def queueRefsOK : ConnPhase → HttpProtocolState → Prop
  | .start, s => s.queue = [] ∧ s.cur < s.store.length
  | .connected w, s =>
    s.cur < s.store.length
    ∧ ∀ req ∈ s.queue, ∃ r, req.headersRef = some r ∧ refBound w s r
  | .done, s => s.queue = []

/-! ## Helper lemmas -/

theorem utf8_append (a b : String) : utf8 (a ++ b) = utf8 a ++ utf8 b := by
  cases a with
  | mk da =>
    cases b with
    | mk db => simp [utf8, String.data, List.flatMap_append]

theorem dictGet_dictInsert (d : Headers) (k : String) (v : Bytes) :
    dictGet (dictInsert d k v) k = some v := by
  induction d with
  | nil => simp [dictInsert, dictGet]
  | cons p rest ih =>
    by_cases h : p.1 = k
    · simp [dictInsert, dictGet, h]
    · simp [dictInsert, dictGet, h, ih]

/-- `invokeHandler` on a successful handler outcome, as one formatted byte
string. -/
theorem invokeHandler_success (v : String) (b : Bytes) :
    invokeHandler v (.success b)
      = utf8 ("HTTP/" ++ v
          ++ " 200 OK\r\nContent-Type: text/plain; charset=utf-8\r\nContent-Length: "
          ++ toString b.length ++ "\r\n\r\n") ++ b := by
  rw [show invokeHandler v (.success b)
      = utf8 ("HTTP/" ++ v ++ " " ++ toString (200 : Nat) ++ " OK\r\n")
        ++ utf8 "Content-Type: text/plain; charset=utf-8\r\n"
        ++ utf8 ("Content-Length: " ++ toString b.length ++ "\r\n")
        ++ utf8 "\r\n" ++ b from rfl,
      show toString (200 : Nat) = "200" from rfl]
  simp only [utf8_append, List.append_assoc]
  rfl

/-- `invokeHandler` on a handler that raised `HTTPException`, as one formatted
byte string. -/
theorem invokeHandler_httpException (v m : String) :
    invokeHandler v (.raised (.httpException m))
      = utf8 ("HTTP/" ++ v
          ++ " 500 OK\r\nContent-Type: text/plain; charset=utf-8\r\nContent-Length: "
          ++ toString (utf8 ("Internal server error, message is " ++ m)).length
          ++ "\r\n\r\nInternal server error, message is " ++ m) := by
  rw [show invokeHandler v (.raised (.httpException m))
      = utf8 ("HTTP/" ++ v ++ " " ++ toString (500 : Nat) ++ " OK\r\n")
        ++ utf8 "Content-Type: text/plain; charset=utf-8\r\n"
        ++ utf8 ("Content-Length: "
            ++ toString (utf8 ("Internal server error, message is " ++ m)).length ++ "\r\n")
        ++ utf8 "\r\n" ++ utf8 ("Internal server error, message is " ++ m) from rfl,
      show toString (500 : Nat) = "500" from rfl]
  simp only [utf8_append, List.append_assoc]
  rfl

/-- `invokeHandler` on a handler awaiting which raised `CancelledError`
(caught by the `except BaseException` clause), as one formatted byte string. -/
theorem invokeHandler_cancelled (v m : String) :
    invokeHandler v (.raised (.cancelledError m))
      = utf8 ("HTTP/" ++ v
          ++ " 500 OK\r\nContent-Type: text/plain; charset=utf-8\r\nContent-Length: "
          ++ toString (utf8 ("Unknown exception (type=<class \x27asyncio.exceptions.CancelledError\x27>, msg="
              ++ m ++ ") caught")).length
          ++ "\r\n\r\nUnknown exception (type=<class \x27asyncio.exceptions.CancelledError\x27>, msg="
          ++ m ++ ") caught") := by
  rw [show invokeHandler v (.raised (.cancelledError m))
      = utf8 ("HTTP/" ++ v ++ " " ++ toString (500 : Nat) ++ " OK\r\n")
        ++ utf8 "Content-Type: text/plain; charset=utf-8\r\n"
        ++ utf8 ("Content-Length: "
            ++ toString (utf8 ("Unknown exception (type=<class \x27asyncio.exceptions.CancelledError\x27>, msg="
                ++ m ++ ") caught")).length ++ "\r\n")
        ++ utf8 "\r\n"
        ++ utf8 ("Unknown exception (type=<class \x27asyncio.exceptions.CancelledError\x27>, msg="
            ++ m ++ ") caught") from rfl,
      show toString (500 : Nat) = "500" from rfl]
  simp only [utf8_append, List.append_assoc]
  rfl

/-! ## Claim theorems -/

/-- C1: for a request whose handler returns body bytes `b` without raising,
the worker writes exactly
`HTTP/<version> 200 OK\r\nContent-Type: text/plain; charset=utf-8\r\nContent-Length: <len(b)>\r\n\r\n<b>`,
and an echo handler on scenario S1 (HTTP/1.1, body `XYZ`) produces exactly
`HTTP/1.1 200 OK\r\nContent-Type: text/plain; charset=utf-8\r\nContent-Length: 3\r\n\r\nXYZ`. -/
theorem worker_success_response_format :
    (∀ (ws : List (Nat × Bytes)) (rid : Nat) (v : String) (ka : Bool) (b : Bytes),
      workerRun { closing := false, writes := ws }
          [.deq { rid := rid, http_version := v, keep_alive := ka, outcome := .success b }]
        = ({ closing := !ka
             writes := ws ++ [(rid,
               utf8 ("HTTP/" ++ v
                 ++ " 200 OK\r\nContent-Type: text/plain; charset=utf-8\r\nContent-Length: "
                 ++ toString b.length ++ "\r\n\r\n") ++ b)] }, .waiting))
    ∧ (workerRun { closing := false, writes := [] }
          [.deq { rid := 0, http_version := "1.1", keep_alive := true,
                  outcome := .success (utf8 "XYZ") }]).1.writes
        = [(0, utf8 "HTTP/1.1 200 OK\r\nContent-Type: text/plain; charset=utf-8\r\nContent-Length: 3\r\n\r\nXYZ")] := by
  constructor
  · intro ws rid v ka b
    simp [workerRun, invokeHandler_success]
  · decide

/-- C2 counterexample: the handler await raises `CancelledError`
(message "Task timed out"), yet the worker does *not* terminate by
cancellation - it writes a response whose status line says 500 and keeps
looping.  The claim "the cancellation propagates out of the worker ..., is
never converted into a 500 response, and no response bytes are written" is
therefore false on this input. -/
theorem handler_cancellation_counterexample :
    (workerRun { closing := false, writes := [] }
        [.deq { rid := 0, http_version := "1.1", keep_alive := true,
                outcome := .raised (.cancelledError "Task timed out") }]).1.writes ≠ []
    ∧ ((workerRun { closing := false, writes := [] }
        [.deq { rid := 0, http_version := "1.1", keep_alive := true,
                outcome := .raised (.cancelledError "Task timed out") }]).1.writes.head!.2).take 12
      = utf8 "HTTP/1.1 500"
    ∧ (workerRun { closing := false, writes := [] }
        [.deq { rid := 0, http_version := "1.1", keep_alive := true,
                outcome := .raised (.cancelledError "Task timed out") }]).2
      = .waiting := by
  refine ⟨by decide, by decide, by decide⟩

/-- C2 (amended): a `CancelledError` delivered while the worker awaits
`queue.get()` is re-raised and terminates the worker with nothing written;
but a `CancelledError` raised while awaiting the user handler is caught by the
`except BaseException` clause of `_invoke_handler` and converted into a 500
response whose bytes are written, after which the worker keeps running
(matching `test_user_handler_cancelled_error` in the repository tests). -/
theorem cancellation_worker_behavior :
    (∀ (t : Transport) (evs : List WorkerEvent),
      workerRun t (.cancelAtGet :: evs) = (t, .cancelled))
    ∧ (∀ (ws : List (Nat × Bytes)) (rid : Nat) (v : String) (ka : Bool) (m : String),
      workerRun { closing := false, writes := ws }
          [.deq { rid := rid, http_version := v, keep_alive := ka,
                  outcome := .raised (.cancelledError m) }]
        = ({ closing := !ka
             writes := ws ++ [(rid,
               utf8 ("HTTP/" ++ v
                 ++ " 500 OK\r\nContent-Type: text/plain; charset=utf-8\r\nContent-Length: "
                 ++ toString (utf8 ("Unknown exception (type=<class \x27asyncio.exceptions.CancelledError\x27>, msg="
                     ++ m ++ ") caught")).length
                 ++ "\r\n\r\nUnknown exception (type=<class \x27asyncio.exceptions.CancelledError\x27>, msg="
                 ++ m ++ ") caught"))] }, .waiting)) := by
  constructor
  · intro t evs
    simp [workerRun]
  · intro ws rid v ka m
    simp [workerRun, invokeHandler_cancelled]

/-- C3 counterexample: the handler raises `HTTPException` with message text
`boom`; the worker writes a 500 response, but its body is
`Internal server error, message is boom`, not `boom`.  The claim "the body
equals the message text" is therefore false on this input. -/
theorem http_exception_body_counterexample :
    bodyAfterBlank ((workerRun { closing := false, writes := [] }
        [.deq { rid := 0, http_version := "1.1", keep_alive := true,
                outcome := .raised (.httpException "boom") }]).1.writes.head!.2)
      ≠ utf8 "boom"
    ∧ bodyAfterBlank ((workerRun { closing := false, writes := [] }
        [.deq { rid := 0, http_version := "1.1", keep_alive := true,
                outcome := .raised (.httpException "boom") }]).1.writes.head!.2)
      = utf8 "Internal server error, message is boom"
    ∧ ((workerRun { closing := false, writes := [] }
        [.deq { rid := 0, http_version := "1.1", keep_alive := true,
                outcome := .raised (.httpException "boom") }]).1.writes.head!.2).take 12
      = utf8 "HTTP/1.1 500" := by
  refine ⟨by decide, by decide, by decide⟩

/-- C3 (amended): for a handler that raises `HTTPException` with message text
`m`, the worker writes a response with status code 500 whose body is
`Internal server error, message is <m>` (a diagnostic containing `m`, not `m`
itself). -/
theorem http_exception_response_format :
    ∀ (ws : List (Nat × Bytes)) (rid : Nat) (v : String) (ka : Bool) (m : String),
      workerRun { closing := false, writes := ws }
          [.deq { rid := rid, http_version := v, keep_alive := ka,
                  outcome := .raised (.httpException m) }]
        = ({ closing := !ka
             writes := ws ++ [(rid,
               utf8 ("HTTP/" ++ v
                 ++ " 500 OK\r\nContent-Type: text/plain; charset=utf-8\r\nContent-Length: "
                 ++ toString (utf8 ("Internal server error, message is " ++ m)).length
                 ++ "\r\n\r\nInternal server error, message is " ++ m))] }, .waiting) := by
  intro ws rid v ka m
  simp [workerRun, invokeHandler_httpException]

/-- C7: after the worker writes the response for a request, the transport is
closed exactly when the request's `keep_alive` flag is false (the response is
written either way). -/
theorem keep_alive_closes_transport :
    ∀ (ws : List (Nat × Bytes)) (rid : Nat) (v : String) (ka : Bool) (o : HandlerOutcome),
      (workerRun { closing := false, writes := ws }
          [.deq { rid := rid, http_version := v, keep_alive := ka, outcome := o }]).1
        = { closing := !ka, writes := ws ++ [(rid, invokeHandler v o)] } := by
  intro ws rid v ka o
  simp [workerRun]

/-- C10: an `HTTPToolsRequest` constructed with `headers = None` (the default)
answers `headers()` with an empty mapping; constructed with any dict object,
`headers()` returns exactly that object. -/
theorem request_headers_default :
    (∀ (store : List Headers) (f : Nat) (v : String) (ka : Bool),
      requestHeaders store { future := f, headersRef := none, http_version := v, keep_alive := ka } = [])
    ∧ (∀ (store : List Headers) (f : Nat) (i : Nat) (v : String) (ka : Bool),
      requestHeaders store { future := f, headersRef := some i, http_version := v, keep_alive := ka }
        = store.getD i []) := by
  exact ⟨fun _ _ _ _ => rfl, fun _ _ _ _ _ => rfl⟩

/-- C8: `on_header` sets the state to HEADER; for a key whose UTF-8 decoding
is a non-empty name it stores the raw value bytes under that name in the
current headers dict (so a later duplicate overwrites the earlier value); an
empty or missing name leaves the dict unchanged. -/
theorem on_header_spec (s : HttpProtocolState) (k : String)
    (h : s.cur < s.store.length) (hk : 0 < k.length) :
    (∀ (key : Option String) (value : Bytes), (on_header s key value).state = .HEADER)
    ∧ (∀ value : Bytes,
        get_headers (on_header s (some k) value) = dictInsert (get_headers s) k value)
    ∧ (∀ value : Bytes,
        dictGet (get_headers (on_header s (some k) value)) k = some value)
    ∧ (∀ value : Bytes, get_headers (on_header s (some "") value) = get_headers s)
    ∧ (∀ value : Bytes, get_headers (on_header s none value) = get_headers s)
    ∧ (∀ (d : Headers) (v1 v2 : Bytes),
        dictGet (dictInsert (dictInsert d k v1) k v2) k = some v2) := by
  refine ⟨?_, ?_, ?_, ?_, ?_, ?_⟩
  · intro key value
    cases key with
    | none => rfl
    | some k0 =>
      by_cases hk0 : k0.length > 0 <;> simp [on_header, hk0]
  · intro value
    simp [on_header, get_headers, hk, List.getD, List.getElem?_set_self, h]
  · intro value
    simp [on_header, get_headers, hk, List.getD, List.getElem?_set_self, h,
      dictGet_dictInsert]
  · intro value
    simp [on_header, get_headers]
  · intro value
    simp [on_header, get_headers]
  · intro d v1 v2
    exact dictGet_dictInsert (dictInsert d k v1) k v2

/-- Witness for C8 at a concrete engine state and header. -/
theorem on_header_spec_witness :
    (initProtocol.cur < initProtocol.store.length ∧ 0 < "Host".length)
    ∧ get_headers (on_header initProtocol (some "Host") (utf8 "example.com"))
        = dictInsert (get_headers initProtocol) "Host" (utf8 "example.com") :=
  ⟨⟨by decide, by decide⟩,
    (on_header_spec initProtocol "Host" (by decide) (by decide)).2.1 (utf8 "example.com")⟩

/-- C6 counterexample: `on_message_complete` on a state with no `body_future`
(headers never completed: state HEADER, one collected header).  It does not
crash and resolves nothing, but - contrary to "logs and changes nothing else" -
it still resets the state to PENDING and rebinds the headers dict to a fresh
empty one. -/
theorem message_complete_counterexample :
    (on_message_complete
      { transportAlive := true, taskAlive := true, timeoutAlive := true,
        parserAlive := true, state := .HEADER,
        store := [[("Host", utf8 "example.com")]], cur := 0,
        bodyFuture := none, body := none, futures := [], queue := [] }).2 = none
    ∧ (on_message_complete
      { transportAlive := true, taskAlive := true, timeoutAlive := true,
        parserAlive := true, state := .HEADER,
        store := [[("Host", utf8 "example.com")]], cur := 0,
        bodyFuture := none, body := none, futures := [], queue := [] }).1.state ≠ .HEADER
    ∧ get_headers (on_message_complete
      { transportAlive := true, taskAlive := true, timeoutAlive := true,
        parserAlive := true, state := .HEADER,
        store := [[("Host", utf8 "example.com")]], cur := 0,
        bodyFuture := none, body := none, futures := [], queue := [] }).1
      ≠ [("Host", utf8 "example.com")] := by
  refine ⟨by decide, by decide, by decide⟩

/-- C6 (amended): when a `body_future` exists, `on_message_complete` resolves
it exactly once - with the accumulated body if body chunks arrived, else with
empty bytes - clears headers, body, body future and parser, and sets the state
to PENDING.  When no `body_future` exists it resolves nothing and does not
crash, but it still resets parser, headers and body and sets the state to
PENDING (it does *not* leave the rest unchanged: those resets precede the
future check in the code). -/
theorem message_complete_spec :
    (∀ (s : HttpProtocolState) (fid : Nat), s.bodyFuture = some fid →
      (on_message_complete s).2 = some (match s.body with | none => [] | some b => b)
      ∧ (on_message_complete s).1.futures
          = s.futures.set fid (some (match s.body with | none => [] | some b => b))
      ∧ (on_message_complete s).1.bodyFuture = none
      ∧ (on_message_complete s).1.body = none
      ∧ (on_message_complete s).1.parserAlive = false
      ∧ (on_message_complete s).1.state = .PENDING
      ∧ get_headers (on_message_complete s).1 = [])
    ∧ (∀ s : HttpProtocolState, s.bodyFuture = none →
      (on_message_complete s).2 = none
      ∧ (on_message_complete s).1.futures = s.futures
      ∧ (on_message_complete s).1.bodyFuture = none
      ∧ (on_message_complete s).1.body = none
      ∧ (on_message_complete s).1.parserAlive = false
      ∧ (on_message_complete s).1.state = .PENDING
      ∧ get_headers (on_message_complete s).1 = []) := by
  constructor
  · intro s fid h
    cases hb : s.body <;>
      simp [on_message_complete, h, hb, get_headers, List.getD, List.getElem?_concat_length]
  · intro s h
    simp [on_message_complete, h, get_headers, List.getD, List.getElem?_concat_length]

/-- Witness for C6 at a concrete engine state with a pending body future and
accumulated body bytes. -/
theorem message_complete_spec_witness :
    (
      { transportAlive := true, taskAlive := true, timeoutAlive := true,
        parserAlive := true, state := .BODY,
        store := [[], [("Host", utf8 "example.com")]], cur := 1,
        bodyFuture := some 0, body := some (utf8 "XYZ"), futures := [none],
        queue := [] } : HttpProtocolState).bodyFuture = some 0
    ∧ (on_message_complete
      { transportAlive := true, taskAlive := true, timeoutAlive := true,
        parserAlive := true, state := .BODY,
        store := [[], [("Host", utf8 "example.com")]], cur := 1,
        bodyFuture := some 0, body := some (utf8 "XYZ"), futures := [none],
        queue := [] }).2 = some (utf8 "XYZ") :=
  ⟨rfl,
    (message_complete_spec.1
      { transportAlive := true, taskAlive := true, timeoutAlive := true,
        parserAlive := true, state := .BODY,
        store := [[], [("Host", utf8 "example.com")]], cur := 1,
        bodyFuture := some 0, body := some (utf8 "XYZ"), futures := [none],
        queue := [] } 0 rfl).1⟩

/-! Helper lemmas for the worker write order (C4). -/

theorem workerRun_writes_prefix (evs : List WorkerEvent) (t : Transport) :
    ∃ tail, (workerRun t evs).1.writes = t.writes ++ tail := by
  induction evs generalizing t with
  | nil => exact ⟨[], by simp [workerRun]⟩
  | cons e rest ih =>
    cases e with
    | cancelAtGet => exact ⟨[], by simp [workerRun]⟩
    | deq it =>
      by_cases hc : t.closing
      · exact ⟨[], by simp [workerRun, hc]⟩
      · by_cases hw : it.writeFails
        · simpa [workerRun, hc, hw] using ih t
        · obtain ⟨tail, htail⟩ := ih
            { closing := t.closing || !it.keep_alive
              writes := t.writes ++ [(it.rid, invokeHandler it.http_version it.outcome)] }
          simp only [Bool.not_eq_true] at hc
          simp [hc] at htail
          exact ⟨(it.rid, invokeHandler it.http_version it.outcome) :: tail,
            by simp [workerRun, hc, hw, htail]⟩

theorem deqIds_append (xs ys : List WorkerEvent) :
    deqIds (xs ++ ys) = deqIds xs ++ deqIds ys := by
  induction xs with
  | nil => rfl
  | cons e rest ih => cases e <;> simp [deqIds, ih]

theorem writeLog_mem_origin (evs : List WorkerEvent) (t : Transport) (a : Nat)
    (h : a ∈ writeLog t evs) : a ∈ t.writes.map Prod.fst ∨ a ∈ deqIds evs := by
  induction evs generalizing t with
  | nil => exact .inl (by simpa [writeLog, workerRun] using h)
  | cons e rest ih =>
    cases e with
    | cancelAtGet => exact .inl (by simpa [writeLog, workerRun] using h)
    | deq it =>
      by_cases hc : t.closing
      · exact .inl (by simpa [writeLog, workerRun, hc] using h)
      · by_cases hw : it.writeFails
        · rcases ih t (by simpa [writeLog, workerRun, hc, hw] using h) with h1 | h1
          · exact .inl h1
          · exact .inr (by simp [deqIds, h1])
        · rcases ih { closing := t.closing || !it.keep_alive
                      writes := t.writes ++ [(it.rid, invokeHandler it.http_version it.outcome)] }
              (by simpa [writeLog, workerRun, hc, hw] using h) with h1 | h1
          · rcases (by simpa using h1 : a ∈ t.writes.map Prod.fst ∨ a = it.rid) with h2 | h2
            · exact .inl h2
            · exact .inr (by simp [deqIds, h2])
          · exact .inr (by simp [deqIds, h1])

theorem worker_fifo_aux (pre : List WorkerEvent) :
    ∀ (t : Transport) (mid post : List WorkerEvent) (it1 it2 : WorkerItem),
    (deqIds (pre ++ .deq it1 :: (mid ++ .deq it2 :: post))).Nodup →
    it1.rid ∉ t.writes.map Prod.fst →
    it2.rid ∉ t.writes.map Prod.fst →
    it1.rid ∈ writeLog t (pre ++ .deq it1 :: (mid ++ .deq it2 :: post)) →
    it2.rid ∈ writeLog t (pre ++ .deq it1 :: (mid ++ .deq it2 :: post)) →
    (writeLog t (pre ++ .deq it1 :: (mid ++ .deq it2 :: post))).indexOf it1.rid
      < (writeLog t (pre ++ .deq it1 :: (mid ++ .deq it2 :: post))).indexOf it2.rid := by
  induction pre with
  | nil =>
    intro t mid post it1 it2 hnodup hn1 hn2 hm1 hm2
    simp only [List.nil_append] at hnodup hm1 hm2 ⊢
    by_cases hc : t.closing
    · exact absurd (by simpa [writeLog, workerRun, hc] using hm1) hn1
    · by_cases hw : it1.writeFails
      · -- it1 is dequeued but its write fails; it cannot appear in the log
        have h1 : it1.rid ∈ writeLog t (mid ++ .deq it2 :: post) := by
          simpa [writeLog, workerRun, hc, hw] using hm1
        have hx : it1.rid ∉ deqIds (mid ++ WorkerEvent.deq it2 :: post) := by
          have := hnodup
          simp [deqIds] at this
          exact this.1
        rcases writeLog_mem_origin _ _ _ h1 with h2 | h2
        · exact absurd h2 hn1
        · exact absurd h2 hx
      · simp only [Bool.not_eq_true] at hc
        -- it1's response is appended; everything later lands after it
        set t2 : Transport :=
          { closing := !it1.keep_alive
            writes := t.writes ++ [(it1.rid, invokeHandler it1.http_version it1.outcome)] } with ht2
        have hrun : writeLog t (WorkerEvent.deq it1 :: (mid ++ .deq it2 :: post))
            = writeLog t2 (mid ++ .deq it2 :: post) := by
          simp [writeLog, workerRun, hc, hw, ht2]
        obtain ⟨tail, htail⟩ := workerRun_writes_prefix (mid ++ .deq it2 :: post) t2
        have hlog : writeLog t2 (mid ++ .deq it2 :: post)
            = t.writes.map Prod.fst ++ it1.rid :: tail.map Prod.fst := by
          simp [writeLog, htail, ht2]
        have hx : it1.rid ∉ deqIds (mid ++ WorkerEvent.deq it2 :: post) := by
          have := hnodup
          simp [deqIds] at this
          exact this.1
        have hmem2 : it2.rid ∈ deqIds (mid ++ WorkerEvent.deq it2 :: post) := by
          simp [deqIds_append, deqIds]
        have hne : it1.rid ≠ it2.rid := fun he => hx (he ▸ hmem2)
        rw [hrun, hlog]
        rw [List.indexOf_append_of_not_mem hn1, List.indexOf_cons_self]
        have hn2b : it2.rid ∉ t.writes.map Prod.fst ++ [it1.rid] := by
          simp [hn2, Ne.symm hne]
        have hsplit : (t.writes.map Prod.fst ++ it1.rid :: tail.map Prod.fst)
            = (t.writes.map Prod.fst ++ [it1.rid]) ++ tail.map Prod.fst := by simp
        rw [hsplit, List.indexOf_append_of_not_mem hn2b]
        simp
        omega
  | cons e pre2 ih =>
    intro t mid post it1 it2 hnodup hn1 hn2 hm1 hm2
    cases e with
    | cancelAtGet =>
      exact absurd (by simpa [writeLog, workerRun] using hm1) hn1
    | deq it0 =>
      by_cases hc : t.closing
      · exact absurd (by simpa [writeLog, workerRun, hc] using hm1) hn1
      · by_cases hw : it0.writeFails
        · have heq : writeLog t ((WorkerEvent.deq it0 :: pre2) ++ .deq it1 :: (mid ++ .deq it2 :: post))
              = writeLog t (pre2 ++ .deq it1 :: (mid ++ .deq it2 :: post)) := by
            simp [writeLog, workerRun, hc, hw]
          rw [heq] at hm1 hm2 ⊢
          have hnodup2 : (deqIds (pre2 ++ .deq it1 :: (mid ++ .deq it2 :: post))).Nodup := by
            have := hnodup
            simp only [List.cons_append, deqIds, List.nodup_cons] at this
            exact this.2
          exact ih t mid post it1 it2 hnodup2 hn1 hn2 hm1 hm2
        · simp only [Bool.not_eq_true] at hc
          set t2 : Transport :=
            { closing := !it0.keep_alive
              writes := t.writes ++ [(it0.rid, invokeHandler it0.http_version it0.outcome)] } with ht2
          have heq : writeLog t ((WorkerEvent.deq it0 :: pre2) ++ .deq it1 :: (mid ++ .deq it2 :: post))
              = writeLog t2 (pre2 ++ .deq it1 :: (mid ++ .deq it2 :: post)) := by
            simp [writeLog, workerRun, hc, hw, ht2]
          rw [heq] at hm1 hm2 ⊢
          have hnd := hnodup
          simp only [List.cons_append, deqIds, List.nodup_cons] at hnd
          have h01 : it0.rid ≠ it1.rid := by
            intro he
            exact hnd.1 (by simp [deqIds_append, deqIds, he])
          have h02 : it0.rid ≠ it2.rid := by
            intro he
            exact hnd.1 (by simp [deqIds_append, deqIds, he])
          have hn1b : it1.rid ∉ t2.writes.map Prod.fst := by
            simp [ht2, hn1, Ne.symm h01]
          have hn2b : it2.rid ∉ t2.writes.map Prod.fst := by
            simp [ht2, hn2, Ne.symm h02]
          exact ih t2 mid post it1 it2 hnd.2 hn1b hn2b hm1 hm2

/-- C4 counterexample: the first request is dequeued first, but its
`transport.write` raises (cf. scenario S7 of the specification and the
`fail_next` dummy transport in the tests); the worker logs and continues, so
the second response is written although the first never is.  The claim "R1's
response bytes are written to the transport before R2's" is therefore false on
this input. -/
theorem fifo_write_error_counterexample :
    2 ∈ writeLog { closing := false, writes := [] }
        [.deq { rid := 1, http_version := "1.1", keep_alive := true, outcome := .success (utf8 "XYZ"), writeFails := true },
         .deq { rid := 2, http_version := "1.1", keep_alive := true, outcome := .success (utf8 "123") }]
    ∧ 1 ∉ writeLog { closing := false, writes := [] }
        [.deq { rid := 1, http_version := "1.1", keep_alive := true, outcome := .success (utf8 "XYZ"), writeFails := true },
         .deq { rid := 2, http_version := "1.1", keep_alive := true, outcome := .success (utf8 "123") }] := by
  refine ⟨by decide, by decide⟩

/-- C4 (amended): the worker dequeues and handles requests in enqueue (wire)
order, and the responses that are actually written appear in the write trace
in that order: whenever the responses of R1 and R2 (R1 dequeued first, ghost
ids all distinct) are both written, R1's response precedes R2's. (As the
counterexample shows, R1's response need not be written at all when its
transport write raises, so the ordering holds among written responses.) -/
theorem worker_fifo_order (pre mid post : List WorkerEvent) (it1 it2 : WorkerItem)
    (hnodup : (deqIds (pre ++ .deq it1 :: (mid ++ .deq it2 :: post))).Nodup)
    (h1 : it1.rid ∈ writeLog { closing := false, writes := [] }
        (pre ++ .deq it1 :: (mid ++ .deq it2 :: post)))
    (h2 : it2.rid ∈ writeLog { closing := false, writes := [] }
        (pre ++ .deq it1 :: (mid ++ .deq it2 :: post))) :
    (writeLog { closing := false, writes := [] }
        (pre ++ .deq it1 :: (mid ++ .deq it2 :: post))).indexOf it1.rid
      < (writeLog { closing := false, writes := [] }
        (pre ++ .deq it1 :: (mid ++ .deq it2 :: post))).indexOf it2.rid :=
  worker_fifo_aux pre _ mid post it1 it2 hnodup (by simp) (by simp) h1 h2

/-- Witness for C4: two successfully served requests, response of the first
written at position 0, of the second at position 1. -/
theorem worker_fifo_order_witness :
    ((deqIds ([] ++ .deq { rid := 1, http_version := "1.1", keep_alive := true, outcome := .success (utf8 "XYZ") }
        :: ([] ++ .deq { rid := 2, http_version := "1.1", keep_alive := true, outcome := .success (utf8 "123") } :: []))).Nodup)
    ∧ (writeLog { closing := false, writes := [] }
        ([] ++ .deq { rid := 1, http_version := "1.1", keep_alive := true, outcome := .success (utf8 "XYZ") }
          :: ([] ++ .deq { rid := 2, http_version := "1.1", keep_alive := true, outcome := .success (utf8 "123") } :: []))).indexOf 1
      < (writeLog { closing := false, writes := [] }
        ([] ++ .deq { rid := 1, http_version := "1.1", keep_alive := true, outcome := .success (utf8 "XYZ") }
          :: ([] ++ .deq { rid := 2, http_version := "1.1", keep_alive := true, outcome := .success (utf8 "123") } :: []))).indexOf 2 :=
  ⟨by decide,
    worker_fifo_order [] [] []
      { rid := 1, http_version := "1.1", keep_alive := true, outcome := .success (utf8 "XYZ") }
      { rid := 2, http_version := "1.1", keep_alive := true, outcome := .success (utf8 "123") }
      (by decide) (by decide) (by decide)⟩

theorem on_header_state (s : HttpProtocolState) (k : Option String) (v : Bytes) :
    (on_header s k v).state = .HEADER := by
  cases k with
  | none => rfl
  | some k0 => by_cases hk : k0.length > 0 <;> simp [on_header, hk]

theorem on_body_state (s : HttpProtocolState) (d : Bytes) :
    (on_body s d).state = s.state := by
  cases h : s.body <;> simp [on_body, h]

theorem on_message_complete_state (s : HttpProtocolState) :
    ((on_message_complete s).1).state = .PENDING := by
  cases h : s.bodyFuture <;> simp [on_message_complete, h]

theorem chainOK_cbs (cbs : List ParserCb) :
    ∀ (w w2 : MsgPhase) (s : HttpProtocolState), cbsPhase w cbs = some w2 → phaseMsgInv w s →
    chainOK codeTransition s.state (cbTrace s cbs) = true
      ∧ phaseMsgInv w2 (runCbs s cbs) := by
  induction cbs with
  | nil =>
    intro w w2 s h hinv
    simp [cbsPhase] at h
    subst h
    exact ⟨rfl, hinv⟩
  | cons c cs ih =>
    intro w w2 s h hinv
    cases w <;> cases c <;> simp [cbsPhase, cbPhase] at h
    · -- headers phase, on_header callback
      rename_i k v
      have hst : (on_header s k v).state = .HEADER := on_header_state s k v
      obtain ⟨hchain, hinv2⟩ := ih .headers w2 (on_header s k v) h
        (by simp [phaseMsgInv, hst])
      rw [hst] at hchain
      refine ⟨?_, hinv2⟩
      simp only [cbTrace, applyCb, chainOK, hst, Bool.and_eq_true]
      refine ⟨?_, hchain⟩
      rcases hinv with h1 | h1 <;> rw [h1] <;> decide
    · -- headers phase, on_headers_complete callback
      rename_i ver ka
      have hst : (on_headers_complete s ver ka).state = .BODY := rfl
      obtain ⟨hchain, hinv2⟩ := ih .bodyPhase w2 (on_headers_complete s ver ka) h
        (by simp [phaseMsgInv, hst])
      rw [hst] at hchain
      refine ⟨?_, hinv2⟩
      simp only [cbTrace, applyCb, chainOK, hst, Bool.and_eq_true]
      refine ⟨?_, hchain⟩
      rcases hinv with h1 | h1 <;> rw [h1] <;> decide
    · -- body phase, on_body callback
      rename_i d
      simp only [phaseMsgInv] at hinv
      have hst : (on_body s d).state = .BODY := by rw [on_body_state, hinv]
      obtain ⟨hchain, hinv2⟩ := ih .bodyPhase w2 (on_body s d) h
        (by simp [phaseMsgInv, hst])
      rw [hst] at hchain
      refine ⟨?_, hinv2⟩
      simp only [cbTrace, applyCb, chainOK, hst, Bool.and_eq_true]
      refine ⟨?_, hchain⟩
      rw [hinv]
      decide
    · -- body phase, on_message_complete callback
      simp only [phaseMsgInv] at hinv
      have hst : ((on_message_complete s).1).state = .PENDING :=
        on_message_complete_state s
      obtain ⟨hchain, hinv2⟩ := ih .headers w2 (on_message_complete s).1 h
        (by simp [phaseMsgInv, hst])
      rw [hst] at hchain
      refine ⟨?_, hinv2⟩
      simp only [cbTrace, applyCb, chainOK, hst, Bool.and_eq_true]
      refine ⟨?_, hchain⟩
      rw [hinv]
      decide

theorem chainOK_append (f : ConnectionState → ConnectionState → Bool)
    (t1 : List ConnectionState) :
    ∀ (a : ConnectionState) (t2 : List ConnectionState),
    chainOK f a t1 = true → chainOK f (lastD a t1) t2 = true →
    chainOK f a (t1 ++ t2) = true := by
  induction t1 with
  | nil => intro a t2 _ h2; simpa using h2
  | cons x xs ih =>
    intro a t2 h1 h2
    simp only [chainOK, Bool.and_eq_true] at h1
    simp only [List.cons_append, chainOK, Bool.and_eq_true]
    exact ⟨h1.1, ih x t2 h1.2 h2⟩

theorem cbTrace_lastD (cbs : List ParserCb) :
    ∀ s : HttpProtocolState, lastD s.state (cbTrace s cbs) = (runCbs s cbs).state := by
  induction cbs with
  | nil => intro s; rfl
  | cons c cs ih => intro s; simp only [cbTrace, lastD, runCbs]; exact ih (applyCb s c)

theorem chainOK_evs (evs : List EngineEvent) :
    ∀ (p p2 : ConnPhase) (s : HttpProtocolState), evsPhase p evs = some p2 → connPhaseInv p s →
    chainOK codeTransition s.state (runTrace s evs) = true
      ∧ connPhaseInv p2 (runEvents s evs) := by
  induction evs with
  | nil =>
    intro p p2 s h hinv
    simp [evsPhase] at h
    subst h
    exact ⟨rfl, hinv⟩
  | cons e es ih =>
    intro p p2 s h hinv
    cases p <;> cases e <;> simp [evsPhase, evPhase] at h
    · -- start, connectionMade
      simp only [connPhaseInv] at hinv
      obtain ⟨hchain, hinv2⟩ := ih (.connected .headers) p2 (connection_made s) h
        (by simp [connPhaseInv, phaseMsgInv, connection_made])
      refine ⟨?_, hinv2⟩
      simp only [runTrace, evTrace, applyEvent, List.cons_append, List.nil_append, chainOK,
        Bool.and_eq_true]
      exact ⟨by rw [hinv]; rfl, hchain⟩
    · -- connected w, dataReceived cbs
      rename_i w cbs
      cases hcbs : cbsPhase w cbs with
      | none => rw [hcbs] at h; simp at h
      | some w2 =>
        rw [hcbs] at h
        simp at h
        have hpre : phaseMsgInv w (dataReceivedPre s) := by
          rcases hw : w with _ | _
          · subst hw
            simp only [connPhaseInv, phaseMsgInv] at hinv ⊢
            rcases hinv with h1 | h1 <;> simp [dataReceivedPre, h1]
          · subst hw
            simp only [connPhaseInv, phaseMsgInv] at hinv ⊢
            simp [dataReceivedPre, hinv]
        obtain ⟨hchain1, hinvm⟩ := chainOK_cbs cbs w w2 (dataReceivedPre s) hcbs hpre
        obtain ⟨hchain2, hinv2⟩ := ih (.connected w2) p2 (runCbs (dataReceivedPre s) cbs) h
          (by simpa [connPhaseInv] using hinvm)
        refine ⟨?_, by simpa [applyEvent] using hinv2⟩
        simp only [runTrace, evTrace, applyEvent, List.cons_append]
        simp only [chainOK, Bool.and_eq_true]
        constructor
        · -- entering data_received may advance PENDING to HEADER
          simp only [connPhaseInv, phaseMsgInv] at hinv
          rcases hw : w with _ | _
          · subst hw
            rcases hinv with h1 | h1 <;> simp [dataReceivedPre, h1] <;> decide
          · subst hw
            simp [dataReceivedPre, hinv]
            decide
        · refine chainOK_append codeTransition _ _ _ hchain1 ?_
          rw [cbTrace_lastD]
          exact hchain2
    · -- connected w, connectionLost
      rename_i w
      obtain ⟨hchain, hinv2⟩ := ih .done p2 (connection_lost s) h
        (by simp [connPhaseInv, connection_lost])
      refine ⟨?_, hinv2⟩
      simp only [runTrace, evTrace, applyEvent, List.cons_append, List.nil_append, chainOK,
        Bool.and_eq_true]
      refine ⟨?_, hchain⟩
      simp only [connPhaseInv, phaseMsgInv] at hinv
      rcases hw : w with _ | _
      · subst hw
        rcases hinv with h1 | h1 <;> rw [h1] <;> rfl
      · subst hw
        rw [hinv]
        rfl

/-- C5 (amended): over any well-formed operation sequence
(`connection_made` first, parser callbacks per message in order, at most one
`connection_lost`, nothing afterwards), every state change is one of:
CLOSED → PENDING, PENDING → HEADER, HEADER → BODY, BODY → PENDING,
PENDING → CLOSED - or one of the additional transitions the code performs:
PENDING → BODY (pipelined message with no header lines) and
HEADER → CLOSED / BODY → CLOSED (connection lost mid-message). -/
theorem state_transitions_sound (evs : List EngineEvent)
    (h : (evsPhase .start evs).isSome) :
    chainOK codeTransition .CLOSED (runTrace initProtocol evs) = true := by
  obtain ⟨p2, hp⟩ := Option.isSome_iff_exists.mp h
  exact (chainOK_evs evs .start p2 initProtocol hp rfl).1

/-- Witness for C5 on a complete one-request connection. -/
theorem state_transitions_sound_witness :
    (evsPhase .start
      [.connectionMade,
       .dataReceived [.header (some "Host") (utf8 "example.com"),
                      .headersComplete "1.1" true, .messageComplete],
       .connectionLost]).isSome
    ∧ chainOK codeTransition .CLOSED (runTrace initProtocol
      [.connectionMade,
       .dataReceived [.header (some "Host") (utf8 "example.com"),
                      .headersComplete "1.1" true, .messageComplete],
       .connectionLost]) = true :=
  ⟨by decide,
    state_transitions_sound
      [.connectionMade,
       .dataReceived [.header (some "Host") (utf8 "example.com"),
                      .headersComplete "1.1" true, .messageComplete],
       .connectionLost] (by decide)⟩

/-- C5 counterexample: the connection is lost while a request header is
still being parsed; the engine then performs the transition HEADER → CLOSED,
which is not among the claimed transitions
CLOSED → PENDING → HEADER → BODY → PENDING (repeating) → CLOSED.  The claim
"no other transition occurs" is therefore false on this well-formed input. -/
theorem state_transition_counterexample :
    (evsPhase .start
      [.connectionMade, .dataReceived [.header (some "Host") (utf8 "example.com")],
       .connectionLost]).isSome
    ∧ chainOK specTransition .CLOSED (runTrace initProtocol
      [.connectionMade, .dataReceived [.header (some "Host") (utf8 "example.com")],
       .connectionLost]) = false := by
  refine ⟨by decide, by decide⟩

theorem on_header_store_length (s : HttpProtocolState) (k : Option String) (v : Bytes) :
    (on_header s k v).store.length = s.store.length := by
  cases k with
  | none => rfl
  | some k0 => by_cases hk : k0.length > 0 <;> simp [on_header, hk]

theorem on_header_cur (s : HttpProtocolState) (k : Option String) (v : Bytes) :
    (on_header s k v).cur = s.cur := by
  cases k with
  | none => rfl
  | some k0 => by_cases hk : k0.length > 0 <;> simp [on_header, hk]

theorem on_header_queue (s : HttpProtocolState) (k : Option String) (v : Bytes) :
    (on_header s k v).queue = s.queue := by
  cases k with
  | none => rfl
  | some k0 => by_cases hk : k0.length > 0 <;> simp [on_header, hk]

theorem on_header_store_get (s : HttpProtocolState) (k : Option String) (v : Bytes)
    (r : Nat) (h : r ≠ s.cur) : (on_header s k v).store[r]? = s.store[r]? := by
  cases k with
  | none => rfl
  | some k0 =>
    by_cases hk : k0.length > 0 <;> simp [on_header, hk, List.getElem?_set_ne (Ne.symm h)]

theorem on_body_fields (s : HttpProtocolState) (d : Bytes) :
    (on_body s d).store = s.store ∧ (on_body s d).cur = s.cur
      ∧ (on_body s d).queue = s.queue := by
  cases h : s.body <;> simp [on_body, h]

theorem on_message_complete_fields (s : HttpProtocolState) :
    ((on_message_complete s).1).store = s.store ++ [[]]
    ∧ ((on_message_complete s).1).cur = s.store.length
    ∧ ((on_message_complete s).1).queue = s.queue := by
  cases h : s.bodyFuture <;> simp [on_message_complete, h]

theorem dataReceivedPre_fields (s : HttpProtocolState) :
    (dataReceivedPre s).store = s.store ∧ (dataReceivedPre s).cur = s.cur
      ∧ (dataReceivedPre s).queue = s.queue := by
  by_cases h : s.state = ConnectionState.PENDING <;> simp [dataReceivedPre, h]

theorem store_stable_cbs (cbs : List ParserCb) :
    ∀ (w w2 : MsgPhase) (s : HttpProtocolState) (r : Nat), cbsPhase w cbs = some w2 →
    r < s.store.length → r ≤ s.cur → (w = .headers → r < s.cur) →
    (runCbs s cbs).store[r]? = s.store[r]?
    ∧ r < (runCbs s cbs).store.length
    ∧ r ≤ (runCbs s cbs).cur
    ∧ (w2 = .headers → r < (runCbs s cbs).cur) := by
  induction cbs with
  | nil =>
    intro w w2 s r h h1 h2 h3
    simp [cbsPhase] at h
    subst h
    exact ⟨rfl, h1, h2, h3⟩
  | cons c cs ih =>
    intro w w2 s r h h1 h2 h3
    cases w <;> cases c <;> simp [cbsPhase, cbPhase] at h
    · -- headers, on_header: mutates only index cur, and r < cur
      rename_i k v
      have hr : r < s.cur := h3 rfl
      obtain ⟨he, hl, hc, hw⟩ := ih .headers w2 (on_header s k v) r h
        (by rw [on_header_store_length]; exact h1)
        (by rw [on_header_cur]; exact h2)
        (fun _ => by rw [on_header_cur]; exact hr)
      refine ⟨?_, hl, hc, hw⟩
      rw [runCbs, applyCb] at *
      rw [he, on_header_store_get s k v r (Nat.ne_of_lt hr)]
    · -- headers, on_headers_complete: store and cur untouched
      rename_i ver ka
      obtain ⟨he, hl, hc, hw⟩ := ih .bodyPhase w2 (on_headers_complete s ver ka) r h
        h1 h2 (by simp)
      exact ⟨he, hl, hc, hw⟩
    · -- bodyPhase, on_body: store and cur untouched
      rename_i d
      obtain ⟨he, hl, hc, hw⟩ := ih .bodyPhase w2 (on_body s d) r h
        (by rw [(on_body_fields s d).1]; exact h1)
        (by rw [(on_body_fields s d).2.1]; exact h2)
        (by simp)
      refine ⟨?_, hl, hc, hw⟩
      rw [runCbs, applyCb] at *
      rw [he, (on_body_fields s d).1]
    · -- bodyPhase, on_message_complete: a fresh dict is appended, cur moves past r
      obtain ⟨he, hl, hc, hw⟩ := ih .headers w2 (on_message_complete s).1 r h
        (by rw [(on_message_complete_fields s).1]; simpa using Nat.lt_succ_of_lt h1)
        (by rw [(on_message_complete_fields s).2.1]; exact Nat.le_of_lt h1)
        (fun _ => by rw [(on_message_complete_fields s).2.1]; exact h1)
      refine ⟨?_, hl, hc, hw⟩
      rw [runCbs, applyCb] at *
      rw [he, (on_message_complete_fields s).1, List.getElem?_append_left h1]

theorem evsPhase_done (es : List EngineEvent) (p2 : ConnPhase)
    (h : evsPhase .done es = some p2) : es = [] ∧ p2 = .done := by
  cases es with
  | nil => simp [evsPhase] at h; exact ⟨rfl, h.symm⟩
  | cons e es2 => simp [evsPhase, evPhase] at h

theorem store_stable_evs (evs : List EngineEvent) :
    ∀ (w : MsgPhase) (p2 : ConnPhase) (s : HttpProtocolState) (r : Nat),
    evsPhase (.connected w) evs = some p2 →
    r < s.store.length → r ≤ s.cur → (w = .headers → r < s.cur) →
    (runEvents s evs).store[r]? = s.store[r]? := by
  induction evs with
  | nil => intro w p2 s r _ _ _ _; rfl
  | cons e es ih =>
    intro w p2 s r h h1 h2 h3
    cases e with
    | connectionMade => simp [evsPhase, evPhase] at h
    | dataReceived cbs =>
      simp only [evsPhase, evPhase] at h
      cases hcbs : cbsPhase w cbs with
      | none => rw [hcbs] at h; simp at h
      | some w2 =>
        rw [hcbs] at h
        simp at h
        obtain ⟨hpre1, hpre2, _⟩ := dataReceivedPre_fields s
        obtain ⟨he, hl, hc, hw⟩ := store_stable_cbs cbs w w2 (dataReceivedPre s) r hcbs
          (by rw [hpre1]; exact h1) (by rw [hpre2]; exact h2)
          (fun hww => by rw [hpre2]; exact h3 hww)
        have := ih w2 p2 (runCbs (dataReceivedPre s) cbs) r h hl hc hw
        simp only [runEvents, applyEvent]
        rw [this, he, hpre1]
    | connectionLost =>
      simp only [evsPhase, evPhase] at h
      obtain ⟨hes, _⟩ := evsPhase_done es p2 (by simpa using h)
      subst hes
      rfl

theorem queue_inv_cbs (cbs : List ParserCb) :
    ∀ (w w2 : MsgPhase) (s : HttpProtocolState), cbsPhase w cbs = some w2 →
    s.cur < s.store.length →
    (∀ req ∈ s.queue, ∃ r, req.headersRef = some r ∧ refBound w s r) →
    (runCbs s cbs).cur < (runCbs s cbs).store.length
    ∧ ∀ req ∈ (runCbs s cbs).queue,
        ∃ r, req.headersRef = some r ∧ refBound w2 (runCbs s cbs) r := by
  induction cbs with
  | nil =>
    intro w w2 s h hcur hq
    simp [cbsPhase] at h
    subst h
    exact ⟨hcur, hq⟩
  | cons c cs ih =>
    intro w w2 s h hcur hq
    cases w <;> cases c <;> simp [cbsPhase, cbPhase] at h
    · -- headers, on_header
      rename_i k v
      refine ih .headers w2 (on_header s k v) h ?_ ?_
      · rw [on_header_cur, on_header_store_length]; exact hcur
      · intro req hreq
        obtain ⟨r, hr, hb1, hb2, hb3⟩ := hq req (by rwa [on_header_queue] at hreq)
        exact ⟨r, hr, by rw [on_header_store_length]; exact hb1,
          by rw [on_header_cur]; exact hb2,
          fun _ => by rw [on_header_cur]; exact hb3 rfl⟩
    · -- headers, on_headers_complete enqueues the new request
      rename_i ver ka
      refine ih .bodyPhase w2 (on_headers_complete s ver ka) h hcur ?_
      intro req hreq
      have hqq : (on_headers_complete s ver ka).queue
          = s.queue ++ [{ future := s.futures.length, headersRef := some s.cur,
                          http_version := ver, keep_alive := ka }] := rfl
      rw [hqq, List.mem_append] at hreq
      rcases hreq with hold | hnew
      · obtain ⟨r, hr, hb1, hb2, hb3⟩ := hq req hold
        exact ⟨r, hr, hb1, hb2, by simp⟩
      · simp at hnew
        subst hnew
        exact ⟨s.cur, rfl, hcur, Nat.le_refl _, by simp⟩
    · -- bodyPhase, on_body
      rename_i d
      obtain ⟨hs, hc, hqu⟩ := on_body_fields s d
      refine ih .bodyPhase w2 (on_body s d) h (by rw [hs, hc]; exact hcur) ?_
      intro req hreq
      obtain ⟨r, hr, hb1, hb2, hb3⟩ := hq req (by rwa [hqu] at hreq)
      exact ⟨r, hr, by rw [hs]; exact hb1, by rw [hc]; exact hb2, by simp⟩
    · -- bodyPhase, on_message_complete rebinds to a fresh dict
      obtain ⟨hs, hc, hqu⟩ := on_message_complete_fields s
      refine ih .headers w2 (on_message_complete s).1 h
        (by rw [hs, hc]; simp) ?_
      intro req hreq
      obtain ⟨r, hr, hb1, hb2, hb3⟩ := hq req (by rwa [hqu] at hreq)
      have hrlt : r < s.store.length := Nat.lt_of_le_of_lt hb2 hcur
      exact ⟨r, hr, by rw [hs]; simpa using Nat.lt_succ_of_lt hrlt,
        by rw [hc]; exact Nat.le_of_lt hrlt, fun _ => by rw [hc]; exact hrlt⟩

theorem queue_inv_evs (evs : List EngineEvent) :
    ∀ (p p2 : ConnPhase) (s : HttpProtocolState), evsPhase p evs = some p2 →
    queueRefsOK p s → queueRefsOK p2 (runEvents s evs) := by
  induction evs with
  | nil =>
    intro p p2 s h hq
    simp [evsPhase] at h
    subst h
    exact hq
  | cons e es ih =>
    intro p p2 s h hq
    cases p <;> cases e <;> simp [evsPhase, evPhase] at h
    · -- start, connectionMade
      obtain ⟨hqe, hcur⟩ := hq
      refine ih (.connected .headers) p2 (connection_made s) h ?_
      refine ⟨hcur, ?_⟩
      intro req hreq
      rw [show (connection_made s).queue = s.queue from rfl, hqe] at hreq
      simp at hreq
    · -- connected w, dataReceived cbs
      rename_i w cbs
      cases hcbs : cbsPhase w cbs with
      | none => rw [hcbs] at h; simp at h
      | some w2 =>
        rw [hcbs] at h
        simp at h
        obtain ⟨hcur, hqr⟩ := hq
        obtain ⟨hs, hc, hqu⟩ := dataReceivedPre_fields s
        obtain ⟨hcur2, hqr2⟩ := queue_inv_cbs cbs w w2 (dataReceivedPre s) hcbs
          (by rw [hs, hc]; exact hcur)
          (by intro req hreq
              obtain ⟨r, hr, hb1, hb2, hb3⟩ := hqr req (by rwa [hqu] at hreq)
              exact ⟨r, hr, by rw [hs]; exact hb1, by rw [hc]; exact hb2,
                fun hww => by rw [hc]; exact hb3 hww⟩)
        exact ih (.connected w2) p2 (runCbs (dataReceivedPre s) cbs) h ⟨hcur2, hqr2⟩
    · -- connected w, connectionLost
      exact ih .done p2 (connection_lost s) h rfl

theorem runEvents_append (xs ys : List EngineEvent) :
    ∀ s : HttpProtocolState, runEvents s (xs ++ ys) = runEvents (runEvents s xs) ys := by
  induction xs with
  | nil => intro s; rfl
  | cons e es ih => intro s; simp only [List.cons_append, runEvents]; exact ih (applyEvent s e)

theorem evsPhase_append (xs ys : List EngineEvent) :
    ∀ (p q : ConnPhase), evsPhase p (xs ++ ys) = some q →
    ∃ m, evsPhase p xs = some m ∧ evsPhase m ys = some q := by
  induction xs with
  | nil => intro p q h; exact ⟨p, rfl, h⟩
  | cons e es ih =>
    intro p q h
    simp only [List.cons_append, evsPhase] at h ⊢
    cases he : evPhase p e with
    | none => rw [he] at h; simp at h
    | some m1 =>
      rw [he] at h
      simp at h
      exact ih m1 q h

/-- C9: a request constructed at `on_headers_complete` keeps its headers
mapping unchanged for the rest of the connection: later parser callbacks of
subsequent pipelined messages never mutate the dict object the request holds,
because `on_message_complete` rebinds `self._headers` to a freshly allocated
empty dict (second conjunct) and `on_header` only ever mutates the currently
bound dict. -/
theorem request_headers_immutable :
    (∀ (evs1 evs2 : List EngineEvent) (req : HTTPToolsRequest) (r : Nat),
      (evsPhase .start (evs1 ++ evs2)).isSome →
      req ∈ (runEvents initProtocol evs1).queue →
      req.headersRef = some r →
      (runEvents initProtocol (evs1 ++ evs2)).store[r]?
        = (runEvents initProtocol evs1).store[r]?)
    ∧ (∀ s : HttpProtocolState,
      ((on_message_complete s).1).cur = s.store.length
      ∧ ((on_message_complete s).1).store[((on_message_complete s).1).cur]? = some []) := by
  constructor
  · intro evs1 evs2 req r hwf hmem href
    obtain ⟨q, hq⟩ := Option.isSome_iff_exists.mp hwf
    obtain ⟨m, hm1, hm2⟩ := evsPhase_append evs1 evs2 .start q hq
    have hinv := queue_inv_evs evs1 .start m initProtocol hm1 (by exact ⟨rfl, by decide⟩)
    rw [runEvents_append]
    cases m with
    | start =>
      rw [hinv.1] at hmem
      simp at hmem
    | done =>
      rw [queueRefsOK] at hinv
      rw [hinv] at hmem
      simp at hmem
    | connected w =>
      obtain ⟨hcur, hqr⟩ := hinv
      obtain ⟨r2, hr2, hb1, hb2, hb3⟩ := hqr req hmem
      rw [href] at hr2
      cases hr2
      exact store_stable_evs evs2 w q (runEvents initProtocol evs1) r hm2 hb1 hb2 hb3
  · intro s
    obtain ⟨hs, hc, _⟩ := on_message_complete_fields s
    refine ⟨hc, ?_⟩
    rw [hs, hc, List.getElem?_concat_length]

/-- Witness for C9: two pipelined requests; the second message's `Host`
header does not change the dict held by the first request. -/
theorem request_headers_immutable_witness :
    ((evsPhase .start
        ([.connectionMade,
          .dataReceived [.header (some "Host") (utf8 "example.com"),
                         .headersComplete "1.1" true, .messageComplete]]
          ++ [.dataReceived [.header (some "Host") (utf8 "other"),
                             .headersComplete "1.1" true, .messageComplete]])).isSome
      ∧ { future := 0, headersRef := some 0, http_version := "1.1", keep_alive := true }
          ∈ (runEvents initProtocol
              [.connectionMade,
               .dataReceived [.header (some "Host") (utf8 "example.com"),
                              .headersComplete "1.1" true, .messageComplete]]).queue)
    ∧ (runEvents initProtocol
        ([.connectionMade,
          .dataReceived [.header (some "Host") (utf8 "example.com"),
                         .headersComplete "1.1" true, .messageComplete]]
          ++ [.dataReceived [.header (some "Host") (utf8 "other"),
                             .headersComplete "1.1" true, .messageComplete]])).store[0]?
      = (runEvents initProtocol
          [.connectionMade,
           .dataReceived [.header (some "Host") (utf8 "example.com"),
                          .headersComplete "1.1" true, .messageComplete]]).store[0]? :=
  ⟨⟨by decide, by decide⟩,
    request_headers_immutable.1
      [.connectionMade,
       .dataReceived [.header (some "Host") (utf8 "example.com"),
                      .headersComplete "1.1" true, .messageComplete]]
      [.dataReceived [.header (some "Host") (utf8 "other"),
                      .headersComplete "1.1" true, .messageComplete]]
      { future := 0, headersRef := some 0, http_version := "1.1", keep_alive := true }
      0 (by decide) (by decide) rfl⟩
